import Mathlib

/-!
Verification of the basic raytracer (src/main.rs): 3D vector algebra,
sphere-ray intersection, point-light illumination, and the per-pixel
render loop, modelled over the reals.
-/

noncomputable section

namespace Raytracer

/-- The 3D vector type from src/main.rs (`struct Vector { x, y, z : f64 }`),
modelled with real components. -/
structure Vec3 where
  x : ℝ
  y : ℝ
  z : ℝ

/-- Componentwise addition (`impl ops::Add<Vector> for Vector`). -/
instance : Add Vec3 where
  add a b := ⟨a.x + b.x, a.y + b.y, a.z + b.z⟩

/-- Componentwise subtraction (`impl ops::Sub<Vector> for Vector`). -/
instance : Sub Vec3 where
  sub a b := ⟨a.x - b.x, a.y - b.y, a.z - b.z⟩

/-- Dot product (`impl ops::Mul<Vector> for Vector`). -/
def Vec3.dot (a b : Vec3) : ℝ :=
  a.x * b.x + a.y * b.y + a.z * b.z

/-- Scalar multiplication (`impl ops::Mul<Vector> for f64`). -/
def smul (k : ℝ) (v : Vec3) : Vec3 :=
  ⟨k * v.x, k * v.y, k * v.z⟩

/-- Length: `sqrt(x^2 + y^2 + z^2)` (`Vector::len`). -/
def Vec3.len (v : Vec3) : ℝ :=
  Real.sqrt (v.x ^ 2 + v.y ^ 2 + v.z ^ 2)

/-- Normalization: `(1.0 / l) * self` where `l = self.len()` (`Vector::normalize`). -/
def Vec3.normalize (v : Vec3) : Vec3 :=
  smul (1 / v.len) v

/-- A ray: origin plus direction (`struct Ray`). -/
structure Ray where
  origin : Vec3
  direction : Vec3

/-- `Ray::at`: `origin + length * direction`. -/
def Ray.at (r : Ray) (length : ℝ) : Vec3 :=
  r.origin + smul length r.direction

/-- A sphere: center and radius (`struct Sphere`). -/
structure Sphere where
  center : Vec3
  radius : ℝ

/-- The quantity `dot = l * diff` computed in `Sphere::intersect`, where
`l` is the normalized ray direction and `diff = origin - center`. -/
def Sphere.dotLD (s : Sphere) (ray : Ray) : ℝ :=
  Vec3.dot ray.direction.normalize (ray.origin - s.center)

/-- The `discriminant = dot.powi(2) - (diff.len().powi(2) - r.powi(2))`
computed in `Sphere::intersect`. -/
def Sphere.disc (s : Sphere) (ray : Ray) : ℝ :=
  (s.dotLD ray) ^ 2 - ((ray.origin - s.center).len ^ 2 - s.radius ^ 2)

/-- `Sphere::intersect` from src/main.rs.  Note that the two candidate
roots are `-dot + discriminant` and `-dot - discriminant`, with the
discriminant itself (not its square root) used as the offset, exactly as
in the source. -/
def Sphere.intersect (s : Sphere) (ray : Ray) : Option ℝ :=
  let dotv := s.dotLD ray
  let discriminant := s.disc ray
  if discriminant < 0 then
    none
  else if discriminant = 0 then
    some (-dotv)
  else
    let a := -dotv + discriminant
    let b := -dotv - discriminant
    if a > b then some b else some a

/-- A point light (`struct PointLight`). -/
structure PointLight where
  source : Vec3
  color : Vec3
  intensity : ℝ

/-- `PointLight::illuminate`: `(intensity / (point - source).len()^2) * color`. -/
def PointLight.illuminate (l : PointLight) (point : Vec3) : Vec3 :=
  smul (l.intensity / (point - l.source).len ^ 2) l.color

/-- One clamping step of the render loop: each channel is set to `1.0`
when it exceeds `1.0` (`color.x = if color.x > 1.0 {1.0} else {color.x}`
and likewise for y and z). -/
def clampStep (v : Vec3) : Vec3 :=
  ⟨if v.x > 1 then 1 else v.x,
   if v.y > 1 then 1 else v.y,
   if v.z > 1 then 1 else v.z⟩

/-- The shading loop of `raytrace`: starting from black, add each light's
illumination of the point and clamp every channel after each addition. -/
def accumColor (lights : List PointLight) (p : Vec3) : Vec3 :=
  lights.foldl (fun color light => clampStep (color + light.illuminate p)) ⟨0, 0, 0⟩

/-- The nearest-hit fold of `raytrace`: across all shapes keep the least
intersection distance, with strict `<` comparison. -/
def closestHit (shapes : List Sphere) (r : Ray) : Option ℝ :=
  shapes.foldl
    (fun cur s =>
      match s.intersect r with
      | none => cur
      | some q =>
        match cur with
        | none => some q
        | some m => if q < m then some q else cur)
    none

/-- Conversion of a channel value to a byte, Rust `as u8` on an `f64`:
truncation toward zero with saturation into `[0, 255]`. -/
def toByte (x : ℝ) : ℕ :=
  min 255 (Int.toNat ⌊x⌋)

/-- The pixel written on a hit: `(color.x*255, color.y*255, color.z*255, 255)`
converted to bytes. -/
def hitPixel (color : Vec3) : ℕ × ℕ × ℕ × ℕ :=
  (toByte (color.x * 255), toByte (color.y * 255), toByte (color.z * 255), 255)

/-- The per-pixel body of the render loop: find the nearest hit; on a hit
shade with all lights at `ray.at(distance)`, otherwise write opaque black. -/
def renderPixel (shapes : List Sphere) (lights : List PointLight) (r : Ray) :
    ℕ × ℕ × ℕ × ℕ :=
  match closestHit shapes r with
  | some distance => hitPixel (accumColor lights (r.at distance))
  | none => (0, 0, 0, 255)

/-- Image width, `const width: u32 = 640`. -/
def width : ℕ := 640

/-- Image height, `const height: u32 = 480`. -/
def height : ℕ := 480

/-- Buffer size, `const array_size: usize = width * height * 4`. -/
def arraySize : ℕ := width * height * 4

/-- Horizontal field of view, `45.0 * PI / 180.0`. -/
def fov : ℝ := 45 * Real.pi / 180

/-- Vertical field of view, `(height as f64 * fov) / (width as f64)`. -/
def fovY : ℝ := ((height : ℝ) * fov) / (width : ℝ)

/-- The camera ray of pixel `(x, y)` built in the render loop. -/
def cameraRay (x y : ℕ) : Ray :=
  let angleX := ((x : ℝ) / (width : ℝ) - 0.5) * fov
  let angleY := -((y : ℝ) / (height : ℝ) - 0.5) * fovY
  let dx := Real.tan angleX
  let dy := Real.tan angleY
  let dz := -Real.sqrt (1 - dx ^ 2 - dy ^ 2)
  ⟨⟨0, 0, 0⟩, ⟨dx, dy, dz⟩⟩

/-- The scene's single sphere: center `(0,0,-10)`, radius 1. -/
def sceneSphere : Sphere := ⟨⟨0, 0, -10⟩, 1⟩

/-- The red light: source `(2,0,-9)`, color `(1,0,0)`, intensity 2. -/
def lightRed : PointLight := ⟨⟨2, 0, -9⟩, ⟨1, 0, 0⟩, 2⟩

/-- The green light: source `(-2,0,-9)`, color `(0,1,0)`, intensity 2. -/
def lightGreen : PointLight := ⟨⟨-2, 0, -9⟩, ⟨0, 1, 0⟩, 2⟩

/-- The blue light: source `(0,-2,-9)`, color `(0,0,1)`, intensity 2. -/
def lightBlue : PointLight := ⟨⟨0, -2, -9⟩, ⟨0, 0, 1⟩, 2⟩

/-- The scene's shapes, `vec![&sphere]`. -/
def sceneShapes : List Sphere := [sceneSphere]

/-- The scene's lights, `vec![&light_red, &light_green, &light_blue]`. -/
def sceneLights : List PointLight := [lightRed, lightGreen, lightBlue]

/-- Byte offset of pixel `(x, y)`: `((x + y * width) * 4) as usize`. -/
def pixelIndex (x y : ℕ) : ℕ :=
  (x + y * width) * 4

/-- Selects channel `k` (0 = R, 1 = G, 2 = B, other = A) of a pixel. -/
def byteAt (p : ℕ × ℕ × ℕ × ℕ) (k : ℕ) : ℕ :=
  match k with
  | 0 => p.1
  | 1 => p.2.1
  | 2 => p.2.2.1
  | _ => p.2.2.2

/-- The pixel buffer produced by the render loop, as a function from byte
index to byte.  The loop writes byte `k` of pixel `(x, y)` at index
`(x + y*width)*4 + k`, each index exactly once, so index `i` decodes to
pixel `(i/4 % width, i/4 / width)` and channel `i % 4`. -/
def raytraceDataWith (shapes : List Sphere) (lights : List PointLight) (i : ℕ) : ℕ :=
  byteAt (renderPixel shapes lights (cameraRay (i / 4 % width) (i / 4 / width))) (i % 4)

/-- The pixel buffer of `raytrace` on the fixed scene. -/
def raytraceData : ℕ → ℕ :=
  raytraceDataWith sceneShapes sceneLights

/-- The sphere-intersection routine exactly as the specification words it:
`L` the unit direction, `diff = origin - center`, `b = dot(L, diff)`,
`disc = b^2 - (length(diff)^2 - r^2)`; nothing when `disc < 0`, `-b` when
`disc = 0`, else `min(-b + disc, -b - disc)` with `disc` itself as offset. -/
def intersectSpec (s : Sphere) (ray : Ray) : Option ℝ :=
  let L := ray.direction.normalize
  let diff := ray.origin - s.center
  let b := Vec3.dot L diff
  let d := b ^ 2 - (diff.len ^ 2 - s.radius ^ 2)
  if d < 0 then none
  else if d = 0 then some (-b)
  else some (min (-b + d) (-b - d))

/-- The simplified intersection of claim C9: nothing when the discriminant
is negative, else always the root `-dot - disc`. -/
def intersectSimple (s : Sphere) (ray : Ray) : Option ℝ :=
  if s.disc ray < 0 then none else some (-(s.dotLD ray) - s.disc ray)

/-- Perpendicular distance from the sphere's center to the ray's line:
the length of the component of `center - origin` orthogonal to the unit
ray direction. -/
def perpDist (s : Sphere) (ray : Ray) : ℝ :=
  let L := ray.direction.normalize
  let v := s.center - ray.origin
  (v - smul (Vec3.dot v L) L).len

/-! Component lemmas for the vector operations. -/

@[simp]
theorem Vec3.add_x (a b : Vec3) : (a + b).x = a.x + b.x := rfl

@[simp]
theorem Vec3.add_y (a b : Vec3) : (a + b).y = a.y + b.y := rfl

@[simp]
theorem Vec3.add_z (a b : Vec3) : (a + b).z = a.z + b.z := rfl

@[simp]
theorem Vec3.sub_x (a b : Vec3) : (a - b).x = a.x - b.x := rfl

@[simp]
theorem Vec3.sub_y (a b : Vec3) : (a - b).y = a.y - b.y := rfl

@[simp]
theorem Vec3.sub_z (a b : Vec3) : (a - b).z = a.z - b.z := rfl

@[simp]
theorem smul_x (k : ℝ) (v : Vec3) : (smul k v).x = k * v.x := rfl

@[simp]
theorem smul_y (k : ℝ) (v : Vec3) : (smul k v).y = k * v.y := rfl

@[simp]
theorem smul_z (k : ℝ) (v : Vec3) : (smul k v).z = k * v.z := rfl

theorem Vec3.len_nonneg (v : Vec3) : 0 ≤ v.len :=
  Real.sqrt_nonneg _

theorem Vec3.sq_len (v : Vec3) : v.len ^ 2 = v.x ^ 2 + v.y ^ 2 + v.z ^ 2 :=
  Real.sq_sqrt (by positivity)

theorem Vec3.len_pos (v : Vec3) (h : v ≠ ⟨0, 0, 0⟩) : 0 < v.len := by
  unfold Vec3.len
  apply Real.sqrt_pos.mpr
  by_contra h'
  push_neg at h'
  have hx : v.x = 0 := by nlinarith [sq_nonneg v.x, sq_nonneg v.y, sq_nonneg v.z]
  have hy : v.y = 0 := by nlinarith [sq_nonneg v.x, sq_nonneg v.y, sq_nonneg v.z]
  have hz : v.z = 0 := by nlinarith [sq_nonneg v.x, sq_nonneg v.y, sq_nonneg v.z]
  exact h (by cases v; simp_all)

theorem normalize_unit (v : Vec3) (h : v ≠ ⟨0, 0, 0⟩) :
    v.normalize.x ^ 2 + v.normalize.y ^ 2 + v.normalize.z ^ 2 = 1 := by
  have hpos := Vec3.len_pos v h
  have hsq := Vec3.sq_len v
  unfold Vec3.normalize
  simp only [smul_x, smul_y, smul_z]
  field_simp
  linarith

/-- The squared perpendicular distance identity: for a nonzero direction,
`perpDist^2 = |origin - center|^2 - dotLD^2`. -/
theorem perpDist_sq (s : Sphere) (ray : Ray) (hd : ray.direction ≠ ⟨0, 0, 0⟩) :
    (perpDist s ray) ^ 2 = (ray.origin - s.center).len ^ 2 - (s.dotLD ray) ^ 2 := by
  have hL := normalize_unit ray.direction hd
  unfold perpDist Sphere.dotLD
  rw [Vec3.sq_len, Vec3.sq_len]
  simp only [Vec3.sub_x, Vec3.sub_y, Vec3.sub_z, smul_x, smul_y, smul_z]
  unfold Vec3.dot
  simp only [Vec3.sub_x, Vec3.sub_y, Vec3.sub_z]
  linear_combination
    ((s.center.x - ray.origin.x) * ray.direction.normalize.x +
     (s.center.y - ray.origin.y) * ray.direction.normalize.y +
     (s.center.z - ray.origin.z) * ray.direction.normalize.z) ^ 2 * hL

theorem clampStep_le_one (v : Vec3) :
    (clampStep v).x ≤ 1 ∧ (clampStep v).y ≤ 1 ∧ (clampStep v).z ≤ 1 := by
  unfold clampStep
  refine ⟨?_, ?_, ?_⟩ <;> dsimp only <;> split_ifs with h <;> linarith

theorem accumColor_le_one (lights : List PointLight) (p : Vec3) :
    (accumColor lights p).x ≤ 1 ∧ (accumColor lights p).y ≤ 1 ∧
      (accumColor lights p).z ≤ 1 := by
  unfold accumColor
  have key : ∀ (l : List PointLight) (a : Vec3), a.x ≤ 1 → a.y ≤ 1 → a.z ≤ 1 →
      (l.foldl (fun color light => clampStep (color + light.illuminate p)) a).x ≤ 1 ∧
      (l.foldl (fun color light => clampStep (color + light.illuminate p)) a).y ≤ 1 ∧
      (l.foldl (fun color light => clampStep (color + light.illuminate p)) a).z ≤ 1 := by
    intro l
    induction l with
    | nil => intro a hx hy hz; exact ⟨hx, hy, hz⟩
    | cons hd tl ih =>
      intro a _ _ _
      simp only [List.foldl_cons]
      obtain ⟨h1, h2, h3⟩ := clampStep_le_one (a + hd.illuminate p)
      exact ih _ h1 h2 h3
  exact key lights ⟨0, 0, 0⟩ (by norm_num) (by norm_num) (by norm_num)

theorem toByte_le (x : ℝ) : toByte x ≤ 255 :=
  min_le_left _ _

/-- C1: `Sphere::intersect` follows the specified non-standard formula:
with unit direction `L`, `diff = origin - center`, `b = dot(L, diff)`,
`disc = b^2 - (length(diff)^2 - r^2)`, it returns nothing when `disc < 0`,
`-b` when `disc = 0`, and otherwise `min(-b + disc, -b - disc)`, with
`disc` itself (not `sqrt(disc)`) as the root offset. -/
theorem intersect_follows_spec_formula (s : Sphere) (ray : Ray) :
    s.intersect ray = intersectSpec s ray := by
  unfold Sphere.intersect intersectSpec Sphere.disc Sphere.dotLD
  dsimp only
  split_ifs with h1 h2 h3
  · rfl
  · rfl
  · exact congrArg some (min_eq_right h3.le).symm
  · exact congrArg some (min_eq_left (le_of_not_lt h3)).symm

/-- C9: when the discriminant is strictly positive, `-dot - disc` is
strictly below `-dot + disc`, so the comparison branch always returns
`-dot - disc`; hence `intersect` is extensionally equal to the simpler
definition returning nothing when `disc < 0` and `-dot - disc` otherwise. -/
theorem intersect_eq_simple (s : Sphere) (ray : Ray) :
    (0 < s.disc ray →
      -(s.dotLD ray) - s.disc ray < -(s.dotLD ray) + s.disc ray) ∧
    s.intersect ray = intersectSimple s ray := by
  constructor
  · intro h; linarith
  · unfold Sphere.intersect intersectSimple
    dsimp only
    split_ifs with h1 h2 h3
    · rfl
    · rw [h2, sub_zero]
    · rfl
    · exfalso
      have hpos : 0 < s.disc ray := lt_of_le_of_ne (not_lt.mp h1) (Ne.symm h2)
      exact h3 (by linarith)

/-- C10: every pixel write is in bounds: for `x < width`, `y < height` and
channel `k < 4`, the byte index `(x + y*width)*4 + k` is strictly less
than `width*height*4`. -/
theorem pixelIndex_in_bounds (x y k : ℕ) (hx : x < width) (hy : y < height)
    (hk : k < 4) : pixelIndex x y + k < arraySize := by
  unfold pixelIndex arraySize width height at *
  omega

/-- Witness for C10 at the last pixel's alpha byte. -/
theorem pixelIndex_in_bounds_w :
    639 < width ∧ 479 < height ∧ 3 < 4 ∧ pixelIndex 639 479 + 3 < arraySize :=
  ⟨by decide, by decide, by decide,
    pixelIndex_in_bounds 639 479 3 (by decide) (by decide) (by decide)⟩

/-- C7: every colour channel byte of a rendered pixel lies in `[0, 255]`,
for any shapes, lights and ray: the accumulated channels never exceed 1,
and the byte conversion of a clamped channel never exceeds 255. -/
theorem pixel_bytes_in_range (shapes : List Sphere) (lights : List PointLight)
    (ray : Ray) (p : Vec3) :
    ((accumColor lights p).x ≤ 1 ∧ (accumColor lights p).y ≤ 1 ∧
      (accumColor lights p).z ≤ 1) ∧
    (renderPixel shapes lights ray).1 ≤ 255 ∧
    (renderPixel shapes lights ray).2.1 ≤ 255 ∧
    (renderPixel shapes lights ray).2.2.1 ≤ 255 ∧
    (renderPixel shapes lights ray).2.2.2 ≤ 255 := by
  refine ⟨accumColor_le_one lights p, ?_⟩
  unfold renderPixel
  cases hc : closestHit shapes ray with
  | none => exact ⟨by norm_num, by norm_num, by norm_num, by norm_num⟩
  | some d =>
    exact ⟨toByte_le _, toByte_le _, toByte_le _, by norm_num [hitPixel]⟩

theorem clamp_eq_min (x : ℝ) : (if x > 1 then 1 else x) = min x 1 := by
  split_ifs with h
  · exact (min_eq_right h.le).symm
  · exact (min_eq_left (not_lt.mp h)).symm

theorem foldl_clamp_min (l : List ℝ) (a : ℝ) (ha : a ≤ 1) (h : ∀ v ∈ l, 0 ≤ v) :
    l.foldl (fun c v => min (c + v) 1) a = min (a + l.sum) 1 := by
  induction l generalizing a with
  | nil => simpa using (min_eq_left ha).symm
  | cons hd tl ih =>
    simp only [List.foldl_cons, List.sum_cons]
    rw [ih (min (a + hd) 1) (min_le_right _ _)
      (fun v hv => h v (List.mem_cons_of_mem hd hv))]
    have hsum : 0 ≤ tl.sum := List.sum_nonneg fun v hv => h v (List.mem_cons_of_mem hd hv)
    rcases le_or_lt (a + hd) 1 with hle | hlt
    · rw [min_eq_left hle, add_assoc]
    · rw [min_eq_right hlt.le, min_eq_right (by linarith), min_eq_right (by linarith)]

theorem accum_channels (lights : List PointLight) (p : Vec3) (a : Vec3) :
    (lights.foldl (fun color light => clampStep (color + light.illuminate p)) a).x =
      (lights.map fun l => (l.illuminate p).x).foldl (fun c v => min (c + v) 1) a.x ∧
    (lights.foldl (fun color light => clampStep (color + light.illuminate p)) a).y =
      (lights.map fun l => (l.illuminate p).y).foldl (fun c v => min (c + v) 1) a.y ∧
    (lights.foldl (fun color light => clampStep (color + light.illuminate p)) a).z =
      (lights.map fun l => (l.illuminate p).z).foldl (fun c v => min (c + v) 1) a.z := by
  induction lights generalizing a with
  | nil => exact ⟨rfl, rfl, rfl⟩
  | cons hd tl ih =>
    simp only [List.foldl_cons, List.map_cons]
    have hstep : clampStep (a + hd.illuminate p) =
        ⟨min (a.x + (hd.illuminate p).x) 1, min (a.y + (hd.illuminate p).y) 1,
         min (a.z + (hd.illuminate p).z) 1⟩ := by
      unfold clampStep
      simp only [Vec3.add_x, Vec3.add_y, Vec3.add_z, clamp_eq_min]
    rw [hstep]
    exact ih _

theorem accumColor_eq_min_sum (lights : List PointLight) (p : Vec3)
    (h : ∀ l ∈ lights, 0 ≤ (l.illuminate p).x ∧ 0 ≤ (l.illuminate p).y ∧
      0 ≤ (l.illuminate p).z) :
    accumColor lights p =
      ⟨min ((lights.map fun l => (l.illuminate p).x).sum) 1,
       min ((lights.map fun l => (l.illuminate p).y).sum) 1,
       min ((lights.map fun l => (l.illuminate p).z).sum) 1⟩ := by
  unfold accumColor
  obtain ⟨hx, hy, hz⟩ := accum_channels lights p ⟨0, 0, 0⟩
  have ex : (Vec3.mk 0 0 0).x = 0 := rfl
  have ey : (Vec3.mk 0 0 0).y = 0 := rfl
  have ez : (Vec3.mk 0 0 0).z = 0 := rfl
  have fx := foldl_clamp_min (lights.map fun l => (l.illuminate p).x) 0 (by norm_num)
    (by intro v hv; obtain ⟨l, hl, rfl⟩ := List.mem_map.mp hv; exact (h l hl).1)
  have fy := foldl_clamp_min (lights.map fun l => (l.illuminate p).y) 0 (by norm_num)
    (by intro v hv; obtain ⟨l, hl, rfl⟩ := List.mem_map.mp hv; exact (h l hl).2.1)
  have fz := foldl_clamp_min (lights.map fun l => (l.illuminate p).z) 0 (by norm_num)
    (by intro v hv; obtain ⟨l, hl, rfl⟩ := List.mem_map.mp hv; exact (h l hl).2.2)
  cases hfold : lights.foldl (fun color light => clampStep (color + light.illuminate p))
    ⟨0, 0, 0⟩ with
  | mk vx vy vz =>
    rw [hfold] at hx hy hz
    simp only [ex, hfold] at hx
    simp only [ey, hfold] at hy
    simp only [ez, hfold] at hz
    simp only [hx, hy, hz, fx, fy, fz, zero_add]

/-- C3: in the shading loop each channel is clamped to 1 after every
light's contribution is added, and for non-negative contributions the
final accumulated colour is independent of the iteration order of the
lights. -/
theorem accumColor_perm_invariant (l₁ l₂ : List PointLight) (p : Vec3)
    (hperm : l₁.Perm l₂)
    (h : ∀ l ∈ l₁, 0 ≤ (l.illuminate p).x ∧ 0 ≤ (l.illuminate p).y ∧
      0 ≤ (l.illuminate p).z) :
    accumColor l₁ p = accumColor l₂ p := by
  have h₂ : ∀ l ∈ l₂, 0 ≤ (l.illuminate p).x ∧ 0 ≤ (l.illuminate p).y ∧
      0 ≤ (l.illuminate p).z := fun l hl => h l (hperm.mem_iff.mpr hl)
  rw [accumColor_eq_min_sum l₁ p h, accumColor_eq_min_sum l₂ p h₂,
    (hperm.map fun l => (l.illuminate p).x).sum_eq,
    (hperm.map fun l => (l.illuminate p).y).sum_eq,
    (hperm.map fun l => (l.illuminate p).z).sum_eq]

/-- Witness for C3 on two concrete swapped lights. -/
theorem accumColor_perm_invariant_w :
    ([PointLight.mk ⟨0, 0, 0⟩ ⟨1, 0, 0⟩ 2, PointLight.mk ⟨0, 0, 0⟩ ⟨0, 1, 0⟩ 3]).Perm
      [PointLight.mk ⟨0, 0, 0⟩ ⟨0, 1, 0⟩ 3, PointLight.mk ⟨0, 0, 0⟩ ⟨1, 0, 0⟩ 2] ∧
    0 ≤ ((PointLight.mk ⟨0, 0, 0⟩ ⟨1, 0, 0⟩ 2).illuminate ⟨1, 0, 0⟩).x ∧
    0 ≤ ((PointLight.mk ⟨0, 0, 0⟩ ⟨1, 0, 0⟩ 2).illuminate ⟨1, 0, 0⟩).y ∧
    0 ≤ ((PointLight.mk ⟨0, 0, 0⟩ ⟨1, 0, 0⟩ 2).illuminate ⟨1, 0, 0⟩).z ∧
    0 ≤ ((PointLight.mk ⟨0, 0, 0⟩ ⟨0, 1, 0⟩ 3).illuminate ⟨1, 0, 0⟩).x ∧
    0 ≤ ((PointLight.mk ⟨0, 0, 0⟩ ⟨0, 1, 0⟩ 3).illuminate ⟨1, 0, 0⟩).y ∧
    0 ≤ ((PointLight.mk ⟨0, 0, 0⟩ ⟨0, 1, 0⟩ 3).illuminate ⟨1, 0, 0⟩).z ∧
    accumColor [PointLight.mk ⟨0, 0, 0⟩ ⟨1, 0, 0⟩ 2,
        PointLight.mk ⟨0, 0, 0⟩ ⟨0, 1, 0⟩ 3] ⟨1, 0, 0⟩ =
      accumColor [PointLight.mk ⟨0, 0, 0⟩ ⟨0, 1, 0⟩ 3,
        PointLight.mk ⟨0, 0, 0⟩ ⟨1, 0, 0⟩ 2] ⟨1, 0, 0⟩ := by
  have hA : 0 ≤ ((PointLight.mk ⟨0, 0, 0⟩ ⟨1, 0, 0⟩ 2).illuminate ⟨1, 0, 0⟩).x ∧
      0 ≤ ((PointLight.mk ⟨0, 0, 0⟩ ⟨1, 0, 0⟩ 2).illuminate ⟨1, 0, 0⟩).y ∧
      0 ≤ ((PointLight.mk ⟨0, 0, 0⟩ ⟨1, 0, 0⟩ 2).illuminate ⟨1, 0, 0⟩).z := by
    unfold PointLight.illuminate
    refine ⟨?_, ?_, ?_⟩ <;> simp only [smul_x, smul_y, smul_z] <;> positivity
  have hB : 0 ≤ ((PointLight.mk ⟨0, 0, 0⟩ ⟨0, 1, 0⟩ 3).illuminate ⟨1, 0, 0⟩).x ∧
      0 ≤ ((PointLight.mk ⟨0, 0, 0⟩ ⟨0, 1, 0⟩ 3).illuminate ⟨1, 0, 0⟩).y ∧
      0 ≤ ((PointLight.mk ⟨0, 0, 0⟩ ⟨0, 1, 0⟩ 3).illuminate ⟨1, 0, 0⟩).z := by
    unfold PointLight.illuminate
    refine ⟨?_, ?_, ?_⟩ <;> simp only [smul_x, smul_y, smul_z] <;> positivity
  have hperm : ([PointLight.mk ⟨0, 0, 0⟩ ⟨1, 0, 0⟩ 2,
      PointLight.mk ⟨0, 0, 0⟩ ⟨0, 1, 0⟩ 3]).Perm
      [PointLight.mk ⟨0, 0, 0⟩ ⟨0, 1, 0⟩ 3, PointLight.mk ⟨0, 0, 0⟩ ⟨1, 0, 0⟩ 2] :=
    List.Perm.swap _ _ _
  refine ⟨hperm, hA.1, hA.2.1, hA.2.2, hB.1, hB.2.1, hB.2.2, ?_⟩
  apply accumColor_perm_invariant _ _ _ hperm
  intro l hl
  simp only [List.mem_cons, List.not_mem_nil, or_false] at hl
  rcases hl with rfl | rfl
  · exact hA
  · exact hB

@[simp]
theorem mk_sub (a₁ a₂ a₃ b₁ b₂ b₃ : ℝ) :
    (Vec3.mk a₁ a₂ a₃) - ⟨b₁, b₂, b₃⟩ = ⟨a₁ - b₁, a₂ - b₂, a₃ - b₃⟩ := rfl

@[simp]
theorem mk_add (a₁ a₂ a₃ b₁ b₂ b₃ : ℝ) :
    (Vec3.mk a₁ a₂ a₃) + ⟨b₁, b₂, b₃⟩ = ⟨a₁ + b₁, a₂ + b₂, a₃ + b₃⟩ := rfl

@[simp]
theorem smul_mk (k a b c : ℝ) : smul k ⟨a, b, c⟩ = ⟨k * a, k * b, k * c⟩ := rfl

@[simp]
theorem dot_mk (a₁ a₂ a₃ b₁ b₂ b₃ : ℝ) :
    Vec3.dot ⟨a₁, a₂, a₃⟩ ⟨b₁, b₂, b₃⟩ = a₁ * b₁ + a₂ * b₂ + a₃ * b₃ := rfl

theorem len_eval (a b c r : ℝ) (hr : 0 ≤ r) (h : a ^ 2 + b ^ 2 + c ^ 2 = r ^ 2) :
    (Vec3.mk a b c).len = r := by
  unfold Vec3.len
  rw [h]
  exact Real.sqrt_sq hr

/-- C2 (amended): a ray from an origin outside the sphere aimed at the
sphere's center hits at distance `|origin - center| - radius^2` — the
radius squared, not the radius, because the discriminant `r^2` is used
without a square root as the offset from `-b = |origin - center|`. -/
theorem intersect_aimed_at_center (s : Sphere) (o : Vec3) (hr : 0 < s.radius)
    (hout : s.radius < (o - s.center).len) :
    Sphere.intersect s ⟨o, s.center - o⟩ =
      some ((o - s.center).len - s.radius ^ 2) := by
  have hρpos : 0 < (o - s.center).len := lt_trans hr hout
  have hρsq : (o - s.center).len ^ 2 =
      (o.x - s.center.x) ^ 2 + (o.y - s.center.y) ^ 2 + (o.z - s.center.z) ^ 2 := by
    simpa using Vec3.sq_len (o - s.center)
  have hlen_d : (s.center - o).len = (o - s.center).len := by
    unfold Vec3.len
    simp only [Vec3.sub_x, Vec3.sub_y, Vec3.sub_z]
    congr 1
    ring
  have hdot : Sphere.dotLD s ⟨o, s.center - o⟩ = -((o - s.center).len) := by
    unfold Sphere.dotLD Vec3.normalize Vec3.dot
    dsimp only
    rw [hlen_d]
    simp only [smul_x, smul_y, smul_z, Vec3.sub_x, Vec3.sub_y, Vec3.sub_z]
    field_simp
    nlinarith [hρsq]
  have hdisc : Sphere.disc s ⟨o, s.center - o⟩ = s.radius ^ 2 := by
    unfold Sphere.disc
    rw [hdot]
    dsimp only
    ring
  unfold Sphere.intersect
  dsimp only
  rw [hdisc, hdot]
  rw [if_neg (not_lt.mpr (sq_nonneg s.radius)), if_neg (pow_ne_zero 2 hr.ne')]
  rw [if_pos (by nlinarith)]
  rw [neg_neg]

/-- Counterexample to C2 as stated: with radius 2, an origin at distance
10 aimed at the center, the code returns 6 while
`distance(origin, center) - radius = 8`. -/
theorem intersect_aimed_at_center_cex :
    (0 : ℝ) < 2 ∧
    (2 : ℝ) < ((⟨0, 0, 0⟩ : Vec3) - ⟨0, 0, -10⟩).len ∧
    Sphere.intersect ⟨⟨0, 0, -10⟩, 2⟩ ⟨⟨0, 0, 0⟩, (⟨0, 0, -10⟩ : Vec3) - ⟨0, 0, 0⟩⟩ =
      some 6 ∧
    ((⟨0, 0, 0⟩ : Vec3) - ⟨0, 0, -10⟩).len - 2 = 8 ∧ (6 : ℝ) ≠ 8 := by
  have h10 : ((⟨0, 0, 0⟩ : Vec3) - ⟨0, 0, -10⟩).len = 10 := by
    rw [mk_sub]
    exact len_eval _ _ _ 10 (by norm_num) (by norm_num)
  have e1 : (Vec3.mk 0 0 (-10)).len = 10 :=
    len_eval _ _ _ 10 (by norm_num) (by norm_num)
  have e2 : (Vec3.mk 0 0 10).len = 10 :=
    len_eval _ _ _ 10 (by norm_num) (by norm_num)
  refine ⟨by norm_num, by rw [h10]; norm_num, ?_, by rw [h10]; norm_num, by norm_num⟩
  unfold Sphere.intersect Sphere.disc Sphere.dotLD Vec3.normalize
  norm_num [mk_sub, e1, e2]

/-- Witness for the amended C2 at the same concrete input. -/
theorem intersect_aimed_at_center_w :
    (0 : ℝ) < 2 ∧
    (2 : ℝ) < ((⟨0, 0, 0⟩ : Vec3) - ⟨0, 0, -10⟩).len ∧
    Sphere.intersect ⟨⟨0, 0, -10⟩, 2⟩ ⟨⟨0, 0, 0⟩, (⟨0, 0, -10⟩ : Vec3) - ⟨0, 0, 0⟩⟩ =
      some (((⟨0, 0, 0⟩ : Vec3) - ⟨0, 0, -10⟩).len - 2 ^ 2) := by
  have h10 : ((⟨0, 0, 0⟩ : Vec3) - ⟨0, 0, -10⟩).len = 10 := by
    rw [mk_sub]
    exact len_eval _ _ _ 10 (by norm_num) (by norm_num)
  exact ⟨by norm_num, by rw [h10]; norm_num,
    intersect_aimed_at_center ⟨⟨0, 0, -10⟩, 2⟩ ⟨0, 0, 0⟩ (by norm_num)
      (by rw [h10]; norm_num)⟩

/-- C4: a ray with nonzero direction whose line passes at perpendicular
distance greater than the radius from the sphere's center gets no hit. -/
theorem intersect_miss (s : Sphere) (ray : Ray) (hd : ray.direction ≠ ⟨0, 0, 0⟩)
    (hr : 0 < s.radius) (hp : s.radius < perpDist s ray) :
    s.intersect ray = none := by
  have hps := perpDist_sq s ray hd
  have hdisc : s.disc ray < 0 := by
    unfold Sphere.disc
    have h1 : 0 < perpDist s ray - s.radius := sub_pos.mpr hp
    have h2 : 0 < perpDist s ray + s.radius := by linarith
    nlinarith [mul_pos h1 h2, hps]
  unfold Sphere.intersect
  dsimp only
  rw [if_pos hdisc]

/-- Witness for C4: a sideways ray misses the scene sphere. -/
theorem intersect_miss_w :
    (Vec3.mk 1 0 0 ≠ ⟨0, 0, 0⟩) ∧ (0 : ℝ) < 1 ∧
    (1 : ℝ) < perpDist ⟨⟨0, 0, -10⟩, 1⟩ ⟨⟨0, 0, 0⟩, ⟨1, 0, 0⟩⟩ ∧
    Sphere.intersect ⟨⟨0, 0, -10⟩, 1⟩ ⟨⟨0, 0, 0⟩, ⟨1, 0, 0⟩⟩ = none := by
  have e1 : (Vec3.mk 1 0 0).len = 1 := len_eval _ _ _ 1 (by norm_num) (by norm_num)
  have e2 : (Vec3.mk 0 0 (-10)).len = 10 := len_eval _ _ _ 10 (by norm_num) (by norm_num)
  have hd : Vec3.mk 1 0 0 ≠ ⟨0, 0, 0⟩ := by
    simp only [ne_eq, Vec3.mk.injEq]
    norm_num
  have hp : (1 : ℝ) < perpDist ⟨⟨0, 0, -10⟩, 1⟩ ⟨⟨0, 0, 0⟩, ⟨1, 0, 0⟩⟩ := by
    unfold perpDist Vec3.normalize
    norm_num [mk_sub, e1, e2]
  exact ⟨hd, by norm_num, hp, intersect_miss _ _ hd (by norm_num) hp⟩

/-- C5: intersect performs no sign filtering: for a sphere centered behind
the ray origin along the direction line, it returns a negative distance,
the nearest-hit fold keeps it, and the render loop shades the pixel from
the point at that negative distance. -/
theorem negative_distance_shaded :
    Sphere.intersect ⟨⟨0, 0, 10⟩, 1⟩ ⟨⟨0, 0, 0⟩, ⟨0, 0, -1⟩⟩ = some (-11) ∧
    (-11 : ℝ) < 0 ∧
    closestHit [⟨⟨0, 0, 10⟩, 1⟩] ⟨⟨0, 0, 0⟩, ⟨0, 0, -1⟩⟩ = some (-11) ∧
    renderPixel [⟨⟨0, 0, 10⟩, 1⟩] sceneLights ⟨⟨0, 0, 0⟩, ⟨0, 0, -1⟩⟩ =
      hitPixel (accumColor sceneLights (Ray.at ⟨⟨0, 0, 0⟩, ⟨0, 0, -1⟩⟩ (-11))) := by
  have e1 : (Vec3.mk 0 0 (-1)).len = 1 := len_eval _ _ _ 1 (by norm_num) (by norm_num)
  have e2 : (Vec3.mk 0 0 (-10)).len = 10 := len_eval _ _ _ 10 (by norm_num) (by norm_num)
  have hint : Sphere.intersect ⟨⟨0, 0, 10⟩, 1⟩ ⟨⟨0, 0, 0⟩, ⟨0, 0, -1⟩⟩ = some (-11) := by
    unfold Sphere.intersect Sphere.disc Sphere.dotLD Vec3.normalize
    norm_num [mk_sub, e1, e2]
  have hch : closestHit [⟨⟨0, 0, 10⟩, 1⟩] ⟨⟨0, 0, 0⟩, ⟨0, 0, -1⟩⟩ = some (-11) := by
    simp [closestHit, hint]
  refine ⟨hint, by norm_num, hch, ?_⟩
  unfold renderPixel
  rw [hch]

theorem data_decode (shapes : List Sphere) (lights : List PointLight)
    (x y k : ℕ) (hx : x < width) (hk : k < 4) :
    raytraceDataWith shapes lights (pixelIndex x y + k) =
      byteAt (renderPixel shapes lights (cameraRay x y)) k := by
  unfold raytraceDataWith pixelIndex width at *
  have h1 : ((x + y * 640) * 4 + k) / 4 = x + y * 640 := by omega
  have h2 : ((x + y * 640) * 4 + k) % 4 = k := by omega
  have h3 : (x + y * 640) % 640 = x := by omega
  have h4 : (x + y * 640) / 640 = y := by omega
  rw [h1, h2, h3, h4]

/-- C6: a pixel whose camera ray hits no shape gets the four bytes
`(0, 0, 0, 255)` at its buffer offset, and the alpha byte of every pixel
is 255 whether it hits or not. -/
theorem background_and_alpha (shapes : List Sphere) (lights : List PointLight)
    (x y : ℕ) (hx : x < width) (hy : y < height) :
    (closestHit shapes (cameraRay x y) = none →
      raytraceDataWith shapes lights (pixelIndex x y) = 0 ∧
      raytraceDataWith shapes lights (pixelIndex x y + 1) = 0 ∧
      raytraceDataWith shapes lights (pixelIndex x y + 2) = 0 ∧
      raytraceDataWith shapes lights (pixelIndex x y + 3) = 255) ∧
    raytraceDataWith shapes lights (pixelIndex x y + 3) = 255 := by
  have d0 := data_decode shapes lights x y 0 hx (by norm_num)
  have d1 := data_decode shapes lights x y 1 hx (by norm_num)
  have d2 := data_decode shapes lights x y 2 hx (by norm_num)
  have d3 := data_decode shapes lights x y 3 hx (by norm_num)
  rw [add_zero] at d0
  constructor
  · intro hnone
    rw [d0, d1, d2, d3]
    unfold renderPixel
    rw [hnone]
    exact ⟨rfl, rfl, rfl, rfl⟩
  · rw [d3]
    unfold renderPixel
    cases hc : closestHit shapes (cameraRay x y) with
    | none => rfl
    | some d => rfl

/-- Witness for C6 at pixel (0, 0) with an empty shape list. -/
theorem background_and_alpha_w :
    0 < width ∧ 0 < height ∧
    closestHit [] (cameraRay 0 0) = none ∧
    raytraceDataWith [] [] (pixelIndex 0 0) = 0 ∧
    raytraceDataWith [] [] (pixelIndex 0 0 + 1) = 0 ∧
    raytraceDataWith [] [] (pixelIndex 0 0 + 2) = 0 ∧
    raytraceDataWith [] [] (pixelIndex 0 0 + 3) = 255 := by
  have h := background_and_alpha [] [] 0 0 (by decide) (by decide)
  have hnone : closestHit [] (cameraRay 0 0) = none := rfl
  obtain ⟨h1, h2, h3, h4⟩ := h.1 hnone
  exact ⟨by decide, by decide, hnone, h1, h2, h3, h4⟩

/-- C8: rendering is deterministic: two runs of the render computation on
the identical fixed scene produce byte-for-byte identical buffers. -/
theorem render_deterministic (b₁ b₂ : ℕ → ℕ) (h₁ : b₁ = raytraceData)
    (h₂ : b₂ = raytraceData) : b₁ = b₂ :=
  h₁.trans h₂.symm

/-- Witness for C8. -/
theorem render_deterministic_w : raytraceData = raytraceData :=
  render_deterministic raytraceData raytraceData rfl rfl

end Raytracer

end
